import Mathlib

set_option autoImplicit false

/-!
Shallow embedding of the `configupdater` block/container document model
(`src/configupdater/section.py`, `src/configupdater/document.py`) together
with the parts of the surrounding package (`block.py`, `option.py`, the
parser) that are only described by the design document; the latter are
marked `Modelled from the spec:` in their doc comments.

Python objects are embedded as immutable structures; a mutating method
becomes a function returning the new value, and a method that can raise
returns `Except CfgError` or a pair `state × Option CfgError` whose first
component is the state of the object when the call returns (on an
exception this is the state at the moment of the raise).
-/

namespace ConfigUpdater

/-- Errors raised by the Python code, by their exception class and payload. -/
inductive CfgError where
  | noSectionError (s : String)
  | noOptionError (o : String) (s : String)
  | duplicateSectionError (s : String)
  | keyError (k : String)
  | valueError
  | parseError (line : String)
deriving DecidableEq

/-- Concatenation of a list of strings, in order (Python string `+=` loop /
`"".join`). -/
def strConcat : List String → String
  | [] => ""
  | s :: rest => s ++ strConcat rest

/-- Replace the element at an index by applying a function (Python in-place
mutation of a list element). Out-of-range indices leave the list unchanged. -/
def modifyAt {α : Type} (f : α → α) : Nat → List α → List α
  | _, [] => []
  | 0, a :: l => f a :: l
  | n + 1, a :: l => a :: modifyAt f n l

/-- Insert an element at an index (Python `list.insert`). -/
def insertAt {α : Type} (x : α) : Nat → List α → List α
  | 0, l => x :: l
  | _ + 1, [] => [x]
  | n + 1, a :: l => a :: insertAt x n l

/-- Index of the first element satisfying a predicate (Python
`next(i for i, entry in enumerate(l) if p(entry))`, `None` when the
generator is exhausted). -/
def firstIdx? {α : Type} (p : α → Bool) : List α → Option Nat
  | [] => none
  | a :: l => if p a then some 0 else (firstIdx? p l).map (· + 1)

/-- `Document.optionxform`: converts an option key to lower case for
unification (Python `str.lower`, over the characters of the key). -/
def optionxform (s : String) : String := String.mk (s.data.map Char.toLower)

/-- Python values that can flow through `get`-style lookups: the `_UNSET`
sentinel, `None`, a plain string, reserved for later: an `Option` block is
added once that type exists, so the raw universe here is a parameter. -/
inductive PyValRaw where
  | unset
  | pynone
  | str (s : String)
deriving DecidableEq

/-- Option block (`option.py` is not part of the excerpt).

Modelled from the spec: an Option holds a key whose original casing is
preserved in `_key` while its identity for lookup purposes is the
normalized key; a value that may be absent (`None` distinct from the empty
string); the raw source lines captured by its `Block` base class; and the
dirty flag `_updated`. -/
structure OptionBlock where
  _key : String
  _value : Option String
  lines : List String
  _updated : Bool
deriving DecidableEq

/-- Modelled from the spec: the lookup identity of an option is the
case-normalized form of its key (`option.py` is not in the excerpt; the
`key` property applies the document's `optionxform`). -/
def OptionBlock.key (o : OptionBlock) : String := optionxform o._key

/-- Modelled from the spec: `Block.updated` (in the missing `block.py`) is
true when the block was logically altered or was newly constructed rather
than parsed, i.e. when no raw lines were captured. -/
def OptionBlock.updated (o : OptionBlock) : Bool := o._updated || o.lines.isEmpty

/-- Modelled from the spec: the `Option.value` setter stores the new value
and marks the block dirty, forcing synthesized rendering. -/
def OptionBlock.setValue (o : OptionBlock) (v : Option String) : OptionBlock :=
  { o with _value := v, _updated := true }

/-- Modelled from the spec: `Option.__init__(key, value, container)` stores
the raw key and value; a fresh option has no captured lines. -/
def OptionBlock.init (key : String) (value : Option String) : OptionBlock :=
  { _key := key, _value := value, lines := [], _updated := false }

/-- Modelled from the spec: rendering an option yields the captured raw
lines when it is not dirty, and a canonical `key = value` line (or a bare
`key` line for a valueless key) when it is. -/
def OptionBlock.render (o : OptionBlock) : String :=
  if o.updated then
    match o._value with
    | some v => o._key ++ " = " ++ v ++ "\n"
    | none => o._key ++ "\n"
  else strConcat o.lines

/-- Comment block: a run of contiguous comment lines. -/
structure Comment where
  lines : List String
deriving DecidableEq

/-- Modelled from the spec: `Comment.add_line` appends one raw line to the
run. -/
def Comment.add_line (c : Comment) (line : String) : Comment :=
  { lines := c.lines ++ [line] }

/-- A comment run renders as its captured lines. -/
def Comment.render (c : Comment) : String := strConcat c.lines

/-- Space block: a run of contiguous blank lines. -/
structure Space where
  lines : List String
deriving DecidableEq

/-- Modelled from the spec: `Space.add_line` appends one raw line to the
run. -/
def Space.add_line (sp : Space) (line : String) : Space :=
  { lines := sp.lines ++ [line] }

/-- A blank-line run renders as its captured lines. -/
def Space.render (sp : Space) : String := strConcat sp.lines

/-- `SectionContent = Union[Option, Comment, Space]`. -/
inductive SectionContent where
  | option (o : OptionBlock)
  | comment (c : Comment)
  | space (sp : Space)
deriving DecidableEq

/-- Rendering one block inside a section. -/
def SectionContent.render : SectionContent → String
  | .option o => o.render
  | .comment c => c.render
  | .space sp => sp.render

/-- Section block (`section.py`): a name, the ordered `_structure` of
contained blocks, the dirty flag `_updated`, and the raw header line(s)
captured by its `Block` base class. -/
structure Section where
  _name : String
  _structure : List SectionContent
  _updated : Bool
  lines : List String
deriving DecidableEq

/-- `Section.__init__(name, container)`: empty structure, `_updated` is
`False`, and (from the `Block` base) no captured lines. -/
def Section.init (name : String) : Section :=
  { _name := name, _structure := [], _updated := false, lines := [] }

/-- Modelled from the spec: `Block.updated` for a section, as for options:
dirty flag set, or no captured lines (newly constructed, not parsed). -/
def Section.updated (s : Section) : Bool := s._updated || s.lines.isEmpty

/-- The `name` property getter. -/
def Section.name (s : Section) : String := s._name

/-- The `name` property setter: stores the new name and sets `_updated`. -/
def Section.setName (s : Section) (value : String) : Section :=
  { s with _name := value, _updated := true }

/-- The header part of `Section.__str__`: the captured header lines when
not updated, a synthesized `[name]` header when updated. -/
def Section.headerStr (s : Section) : String :=
  if s.updated then "[" ++ s._name ++ "]\n" else strConcat s.lines

/-- `Section.__str__`: the header followed by the contained blocks in
order. -/
def Section.render (s : Section) : String :=
  s.headerStr ++ strConcat (s._structure.map SectionContent.render)

/-- `Section.iter_options`: only the option blocks, in order. -/
def Section.iter_options (s : Section) : List OptionBlock :=
  s._structure.filterMap fun e =>
    match e with
    | .option o => some o
    | _ => none

/-- `Section.options`: the option keys, in order. -/
def Section.options (s : Section) : List String :=
  s.iter_options.map OptionBlock.key

/-- `Section.__contains__` / `Section.has_option`: whether some option
block's key equals the given key (no normalization applied here). -/
def Section.contains (s : Section) (key : String) : Bool :=
  s.iter_options.any fun o => o.key == key

/-- `Section._get_option_idx`: index in `_structure` of the first option
block whose key equals the given key (no normalization applied here);
`none` embeds the `StopIteration` of the exhausted generator. -/
def Section._get_option_idx (s : Section) (key : String) : Option Nat :=
  firstIdx?
    (fun e =>
      match e with
      | .option o => o.key == key
      | _ => false)
    s._structure

/-- `Section.__getitem__`: normalizes the key with `optionxform`, returns
the first option with that key, raises `KeyError` if none. -/
def Section.getitem (s : Section) (key : String) : Except CfgError OptionBlock :=
  let key := optionxform key
  match s.iter_options.find? (fun o => o.key == key) with
  | some o => .ok o
  | none => .error (.keyError key)

/-- `Section.get(key, default)`: first option whose key equals the given
key exactly as supplied (no normalization), else the default. The result
universe `γ` holds both options and the Python default values. -/
def Section.get {γ : Type} (s : Section) (key : String)
    (default : γ) (found : OptionBlock → γ) : γ :=
  match s.iter_options.find? (fun o => o.key == key) with
  | some o => found o
  | none => default

/-- `Section.add_option`: append unconditionally (used during parsing). -/
def Section.add_option (s : Section) (entry : OptionBlock) : Section :=
  { s with _structure := s._structure ++ [.option entry] }

/-- `Section.add_comment`: extend the trailing comment run if the last
block is a comment, else append a fresh comment holding the line. -/
def Section.add_comment (s : Section) (line : String) : Section :=
  match s._structure.getLast? with
  | some (.comment c) =>
    { s with _structure := s._structure.dropLast ++ [.comment (c.add_line line)] }
  | _ =>
    { s with _structure := s._structure ++ [.comment (Comment.add_line ⟨[]⟩ line)] }

/-- `Section.add_space`: extend the trailing blank run if the last block is
a space, else append a fresh space holding the line. -/
def Section.add_space (s : Section) (line : String) : Section :=
  match s._structure.getLast? with
  | some (.space sp) =>
    { s with _structure := s._structure.dropLast ++ [.space (sp.add_line line)] }
  | _ =>
    { s with _structure := s._structure ++ [.space (Space.add_line ⟨[]⟩ line)] }

/-- `Section.__delitem__`: look up the index of the first option whose key
equals the supplied key (via `_get_option_idx`, no normalization) and
remove it; `KeyError` when absent, with the section unchanged. -/
def Section.delitemRun (s : Section) (key : String) : Section × Option CfgError :=
  match s._get_option_idx key with
  | some idx => ({ s with _structure := s._structure.eraseIdx idx }, none)
  | none => (s, some (.keyError key))

/-- The `Optional[Value]` argument of `Section.__setitem__`: an `Option`
block, a string, or `None`. -/
inductive SetValue where
  | opt (o : OptionBlock)
  | str (v : String)
  | pynone
deriving DecidableEq

/-- The `Optional[str]` value carried by a non-`Option` `SetValue`. -/
def SetValue.toVal : SetValue → Option String
  | .opt _ => none
  | .str v => some v
  | .pynone => none

/-- `Section.__setitem__(key, value)`: when the normalized key is present,
either splice a caller-supplied `Option` into the found block's index
(remove then insert at the same index) provided its own key equals the
target key — else `ValueError` — or mutate the found option's value in
place; when absent, append (the supplied `Option`, or a freshly created
one). The index of the found option is its `container_idx` (modelled from
the spec: a block's index within its owning container). -/
def Section.setitemRun (s : Section) (key : String) (value : SetValue) :
    Section × Option CfgError :=
  if s.contains (optionxform key) then
    match value with
    | .opt v =>
      if v.key ≠ key then (s, some .valueError)
      else
        match s._get_option_idx (optionxform key) with
        | some idx =>
          ({ s with _structure := insertAt (.option v) idx (s._structure.eraseIdx idx) },
            none)
        | none => (s, none)
    | _ =>
      match s._get_option_idx (optionxform key) with
      | some idx =>
        ({ s with
            _structure :=
              modifyAt
                (fun e =>
                  match e with
                  | .option o => .option (o.setValue value.toVal)
                  | e => e)
                idx s._structure },
          none)
      | none => (s, none)
  else
    let o :=
      match value with
      | .opt v => v
      | _ => (OptionBlock.init key value.toVal).setValue value.toVal
    ({ s with _structure := s._structure ++ [.option o] }, none)

/-- Option keys are unique within a section, compared by their (normalized)
lookup identity. -/
def Section.optionKeysUnique (s : Section) : Prop :=
  s.options.Nodup

instance (s : Section) : Decidable s.optionKeysUnique := by
  unfold Section.optionKeysUnique
  infer_instance

/-- `ConfigContent = Union[Section, Comment, Space]`. -/
inductive ConfigContent where
  | sectionB (s : Section)
  | comment (c : Comment)
  | space (sp : Space)
deriving DecidableEq

/-- Rendering one top-level block. -/
def ConfigContent.render : ConfigContent → String
  | .sectionB s => s.render
  | .comment c => c.render
  | .space sp => sp.render

/-- Document (`document.py`): the root container of top-level blocks. -/
structure Document where
  _structure : List ConfigContent
deriving DecidableEq

/-- `Document.__str__`: concatenation of the blocks in container order. -/
def Document.render (d : Document) : String :=
  strConcat (d._structure.map ConfigContent.render)

/-- `Document.iter_sections`: only the section blocks, in order. -/
def Document.iter_sections (d : Document) : List Section :=
  d._structure.filterMap fun e =>
    match e with
    | .sectionB s => some s
    | _ => none

/-- `Document.sections`: the section names, in order. -/
def Document.sections (d : Document) : List String :=
  d.iter_sections.map Section.name

/-- `Document.__contains__` / `Document.has_section`. -/
def Document.has_section (d : Document) (key : String) : Bool :=
  d.iter_sections.any fun s => s.name == key

/-- `Document._get_section_idx`: index in `_structure` of the first section
block with the given name; `none` embeds the `StopIteration`. -/
def Document._get_section_idx (d : Document) (name : String) : Option Nat :=
  firstIdx?
    (fun e =>
      match e with
      | .sectionB s => s.name == name
      | _ => false)
    d._structure

/-- `Document.__getitem__`: the first section with the given name, else
`KeyError`. -/
def Document.getitem (d : Document) (key : String) : Except CfgError Section :=
  match d.iter_sections.find? (fun s => s.name == key) with
  | some s => .ok s
  | none => .error (.keyError key)

/-- `Document.get_section(name, default)`: the first section with the given
name, else the default (`dict.get` semantics). -/
def Document.get_section (d : Document) (name : String) : Option Section :=
  d.iter_sections.find? fun s => s.name == name

/-- The argument of `Document.add_section`: a string, a `Section`, or a
value of any other type. -/
inductive SectionArg where
  | str (name : String)
  | sec (s : Section)
  | other

/-- `Document.add_section`: `ValueError` for a non-string non-`Section`
argument; `DuplicateSectionError` when the name already exists; otherwise
append the (fresh or given) section at the end. Either error is raised
before `_structure` is touched, so the returned state on error is the
original document. -/
def Document.add_sectionRun (d : Document) (arg : SectionArg) :
    Document × Option CfgError :=
  match arg with
  | .other => (d, some .valueError)
  | .str name =>
    if d.has_section name then (d, some (.duplicateSectionError name))
    else ({ _structure := d._structure ++ [.sectionB (Section.init name)] }, none)
  | .sec s =>
    if d.has_section s.name then (d, some (.duplicateSectionError s.name))
    else ({ _structure := d._structure ++ [.sectionB s] }, none)

/-- `Document.__setitem__(key, value)`: when the key names an existing
section, remove that section and insert `value` at the same index (the
value keeps its own name); otherwise set `value`'s name to the key via the
`name` setter (which marks it dirty) and `add_section` it. -/
def Document.setitemRun (d : Document) (key : String) (value : Section) :
    Document × Option CfgError :=
  if d.has_section key then
    match d._get_section_idx key with
    | some idx =>
      ({ _structure := insertAt (.sectionB value) idx (d._structure.eraseIdx idx) },
        none)
    | none => (d, none)
  else
    d.add_sectionRun (.sec (value.setName key))

/-- `Document.options(section)`: `NoSectionError` when the section is
absent, else its option keys. -/
def Document.options (d : Document) (name : String) :
    Except CfgError (List String) :=
  if ¬ d.has_section name then .error (.noSectionError name)
  else
    match d.get_section name with
    | some s => .ok s.options
    | none => .error (.keyError name)

/-- The value universe of `Document.get`: the `_UNSET` sentinel, `None`, a
string, or an `Option` block. -/
inductive PyVal where
  | unset
  | pynone
  | str (s : String)
  | opt (o : OptionBlock)
deriving DecidableEq

/-- `Document.get(section, option, fallback=_UNSET)`: `NoSectionError` when
the section is absent (whatever the fallback); otherwise normalize the
option key and delegate to `Section.get` with the fallback as default;
`NoOptionError` exactly when that returns the `_UNSET` sentinel. -/
def Document.get (d : Document) (s o : String) (fallback : PyVal) :
    Except CfgError PyVal :=
  match d.get_section s with
  | Option.none => .error (.noSectionError s)
  | Option.some sec =>
    let o := optionxform o
    let value := sec.get o fallback PyVal.opt
    if value = PyVal.unset then .error (.noOptionError o s) else .ok value

/-- `Document.has_option(section, option)`: normalize the option key, then
test membership in `get_section(section, default={})` — an empty dict when
the section is absent, so the result is `False` with no error. -/
def Document.has_option (d : Document) (s o : String) : Bool :=
  let key := optionxform o
  match d.get_section s with
  | Option.none => false
  | Option.some sec => sec.contains key

/-- Section names are unique within a document. -/
def Document.sectionNamesUnique (d : Document) : Prop :=
  d.sections.Nodup

instance (d : Document) : Decidable d.sectionNamesUnique := by
  unfold Document.sectionNamesUnique
  infer_instance

/-!
Parser. The parser module is not part of the excerpt; everything below is
modelled from the spec: a single-pass, line-oriented state machine that
classifies each line and populates the document through the container
operations, capturing every consumed raw line verbatim in exactly one
block.
-/

/-- Strip one trailing newline character from a list of characters. -/
def stripNL : List Char → List Char
  | [] => []
  | ['\n'] => []
  | c :: rest => c :: stripNL rest

/-- Split the characters before and after the first `=`. -/
def splitAtEq : List Char → List Char × List Char
  | [] => ([], [])
  | '=' :: rest => ([], rest)
  | c :: rest =>
    let p := splitAtEq rest
    (c :: p.1, p.2)

/-- Drop leading and trailing spaces. -/
def trimSpaces (cs : List Char) : List Char :=
  ((cs.dropWhile (· = ' ')).reverse.dropWhile (· = ' ')).reverse

/-- Modelled from the spec: the classification of one raw line — section
header, blank, comment, continuation (leading indentation), option
(`key = value`), or no valid transition. -/
inductive LineKind where
  | header (name : String)
  | blank
  | comment
  | continuation
  | optionLine (key : String) (value : String)
  | invalid
deriving DecidableEq

/-- Modelled from the spec: classify one raw line (the line still carries
its trailing newline). A line of only whitespace is blank; `[name]` is a
header; a `#`/`;` line is a comment; a line with leading indentation is a
continuation; a line containing `=` is a `key = value` option line;
anything else has no valid transition. -/
def classify (line : String) : LineKind :=
  let cs := stripNL line.data
  if cs.all Char.isWhitespace then .blank
  else
    match cs with
    | '[' :: rest =>
      if rest.getLast? = some ']' then .header (String.mk rest.dropLast)
      else .invalid
    | '#' :: _ => .comment
    | ';' :: _ => .comment
    | c :: _ =>
      if c = ' ' ∨ c = '\t' then .continuation
      else if cs.contains '=' then
        let p := splitAtEq cs
        .optionLine (String.mk (trimSpaces p.1)) (String.mk (trimSpaces p.2))
      else .invalid
    | [] => .invalid

/-- Extend the trailing comment run of the top-level block list, or append
a fresh comment block (merge rule of the spec, at document level). -/
def addCommentTop (blocks : List ConfigContent) (line : String) :
    List ConfigContent :=
  match blocks.getLast? with
  | some (.comment c) => blocks.dropLast ++ [.comment (c.add_line line)]
  | _ => blocks ++ [.comment (Comment.add_line ⟨[]⟩ line)]

/-- Extend the trailing blank run of the top-level block list, or append a
fresh space block (merge rule of the spec, at document level). -/
def addSpaceTop (blocks : List ConfigContent) (line : String) :
    List ConfigContent :=
  match blocks.getLast? with
  | some (.space sp) => blocks.dropLast ++ [.space (sp.add_line line)]
  | _ => blocks ++ [.space (Space.add_line ⟨[]⟩ line)]

/-- Append a continuation line to the last block of the section, which must
be an option. -/
def Section.appendToLastOption (s : Section) (line : String) : Option Section :=
  match s._structure.getLast? with
  | some (.option o) =>
    some { s with
            _structure :=
              s._structure.dropLast ++ [.option { o with lines := o.lines ++ [line] }] }
  | _ => none

/-- Modelled from the spec: the parser's state — the finished top-level
blocks, the section currently being populated, and whether the machine is
in the in-option-value state (continuation lines allowed). -/
structure ParserState where
  done : List ConfigContent
  cur : Option Section
  inOption : Bool

/-- Close the current section, if any, and return the finished top-level
block list. -/
def ParserState.flush (st : ParserState) : List ConfigContent :=
  st.done ++
    match st.cur with
    | some s => [.sectionB s]
    | none => []

/-- A section block freshly created by the parser: its header line is
captured raw, so it is not dirty. -/
def parsedSection (name line : String) : Section :=
  { _name := name, _structure := [], _updated := false, lines := [line] }

/-- An option block freshly created by the parser: its source line is
captured raw, so it is not dirty. -/
def parsedOption (key value line : String) : OptionBlock :=
  { _key := key, _value := some value, lines := [line], _updated := false }

/-- Modelled from the spec: one transition of the parser state machine. A
header closes the current section and opens a new one; an option line
requires a current section; blank and comment lines extend or create runs
in the current container and leave the in-option-value state; a
continuation line is only valid in the in-option-value state and extends
the current option; any other line is a parse error. -/
def parseStep (st : ParserState) (line : String) :
    Except CfgError ParserState :=
  match classify line with
  | .header name =>
    .ok { done := st.flush, cur := some (parsedSection name line), inOption := false }
  | .blank =>
    match st.cur with
    | some sec => .ok { st with cur := some (sec.add_space line), inOption := false }
    | none => .ok { st with done := addSpaceTop st.done line, inOption := false }
  | .comment =>
    match st.cur with
    | some sec => .ok { st with cur := some (sec.add_comment line), inOption := false }
    | none => .ok { st with done := addCommentTop st.done line, inOption := false }
  | .optionLine key value =>
    match st.cur with
    | some sec =>
      .ok { st with
              cur := some (sec.add_option (parsedOption key value line)),
              inOption := true }
    | none => .error (.parseError line)
  | .continuation =>
    match st.cur, st.inOption with
    | some sec, true =>
      match sec.appendToLastOption line with
      | some sec2 => .ok { st with cur := some sec2 }
      | none => .error (.parseError line)
    | _, _ => .error (.parseError line)
  | .invalid => .error (.parseError line)

/-- Modelled from the spec: consume the remaining lines; end of input
closes any open section; parsing stops at the first error. -/
def parseFrom (st : ParserState) : List String → Except CfgError Document
  | [] => .ok ⟨st.flush⟩
  | line :: rest =>
    match parseStep st line with
    | .ok st2 => parseFrom st2 rest
    | .error e => .error e

/-- Split a string into its lines, each line keeping its trailing newline
character; a final line without a newline is kept as is. -/
def splitLinesAux : List Char → List Char → List String
  | [], acc => if acc.isEmpty then [] else [String.mk acc.reverse]
  | c :: rest, acc =>
    if c = '\n' then String.mk (acc.reverse ++ ['\n']) :: splitLinesAux rest []
    else splitLinesAux rest (c :: acc)

/-- Split a string into newline-terminated lines. -/
def splitLines (T : String) : List String := splitLinesAux T.data []

/-- Modelled from the spec: `parse(text)` runs the state machine over the
lines of the text, starting with an empty document and no current
section. -/
def parse (T : String) : Except CfgError Document :=
  parseFrom { done := [], cur := none, inOption := false } (splitLines T)

/-- The text consumed so far by the parser: finished blocks followed by
the open section. -/
def ParserState.render (st : ParserState) : String :=
  strConcat (st.done.map ConfigContent.render) ++
    match st.cur with
    | some s => s.render
    | none => ""

/-- In the in-option-value state the open section ends in an option that
was parsed (not dirty, with captured lines). -/
def ParserState.wf (st : ParserState) : Prop :=
  st.inOption = true →
    ∃ sec o, st.cur = some sec ∧ sec._structure.getLast? = some (.option o) ∧
      o._updated = false ∧ o.lines ≠ []

/-! Concrete values used by the witnesses and counterexamples. -/

/-- A parsed option whose raw key is mixed-case; its lookup key is
`"key"`. -/
def exOptionKey : OptionBlock :=
  { _key := "Key", _value := some "v", lines := ["Key = v\n"], _updated := false }

/-- A parsed section named `"sec"` holding `exOptionKey`. -/
def exSection : Section :=
  { _name := "sec", _structure := [.option exOptionKey], _updated := false,
    lines := ["[sec]\n"] }

/-- A document holding just `exSection`. -/
def exDoc : Document := ⟨[.sectionB exSection]⟩

/-- A small valid configuration text exercising every parser state. -/
def exText : String := "# note\n[sec]\nkey = val\n    cont\n\n[b]\nx = 1\n"

/-! Helper lemmas about `strConcat`, indices and lists. -/

theorem strConcat_append (l₁ l₂ : List String) :
    strConcat (l₁ ++ l₂) = strConcat l₁ ++ strConcat l₂ := by
  induction l₁ with
  | nil => simp [strConcat, String.empty_append]
  | cons s rest ih => simp [strConcat, ih, String.append_assoc]

theorem strConcat_singleton (s : String) : strConcat [s] = s := by
  simp [strConcat, String.append_empty]

theorem dropLast_concat_getLast? {α : Type} :
    ∀ {l : List α} {x : α}, l.getLast? = some x → l.dropLast ++ [x] = l
  | [a], x, h => by simp [List.getLast?] at h; simp [h]
  | a :: b :: t, x, h => by
    have ih := dropLast_concat_getLast? (l := b :: t) (x := x)
    simp only [List.getLast?] at h ih ⊢
    simp [List.dropLast, ih h]

theorem strConcat_map_lastMod {α : Type} (f : α → String) {l : List α}
    {x x' : α} {t : String} (h : l.getLast? = some x) (h2 : f x' = f x ++ t) :
    strConcat ((l.dropLast ++ [x']).map f) = strConcat (l.map f) ++ t := by
  conv_rhs => rw [← dropLast_concat_getLast? h]
  simp [List.map_append, strConcat_append, strConcat_singleton, h2,
    String.append_assoc]

theorem strConcat_map_concat {α : Type} (f : α → String) (l : List α) (x : α) :
    strConcat ((l ++ [x]).map f) = strConcat (l.map f) ++ f x := by
  simp [List.map_append, strConcat_append, strConcat_singleton]

theorem firstIdx?_isSome {α : Type} (p : α → Bool) :
    ∀ l : List α, (firstIdx? p l).isSome = l.any p := by
  intro l
  induction l with
  | nil => simp [firstIdx?]
  | cons a rest ih =>
    by_cases h : p a
    · simp [firstIdx?, h]
    · simp only [firstIdx?, h, if_neg, Bool.false_eq_true, List.any_cons]
      simp only [Option.isSome_map] at *
      simp [ih, h]

theorem firstIdx?_some_spec {α : Type} (p : α → Bool) :
    ∀ {l : List α} {i : Nat}, firstIdx? p l = some i →
      i < l.length ∧ ∃ a, l.get? i = some a ∧ p a = true := by
  intro l
  induction l with
  | nil => intro i h; simp [firstIdx?] at h
  | cons a rest ih =>
    intro i h
    by_cases hp : p a
    · simp [firstIdx?, hp] at h
      subst h
      exact ⟨Nat.succ_pos _, a, rfl, hp⟩
    · rw [firstIdx?, if_neg (by simpa using hp)] at h
      cases hj : firstIdx? p rest with
      | none => rw [hj] at h; simp at h
      | some j =>
        rw [hj] at h
        simp only [Option.map_some', Option.some.injEq] at h
        subst h
        obtain ⟨hlt, b, hb, hpb⟩ := ih hj
        exact ⟨Nat.succ_lt_succ hlt, b, hb, hpb⟩

theorem insertAt_eraseIdx_eq_set {α : Type} (x : α) :
    ∀ (l : List α) (i : Nat), i < l.length →
      insertAt x i (l.eraseIdx i) = l.set i x := by
  intro l
  induction l with
  | nil => intro i h; simp at h
  | cons a rest ih =>
    intro i h
    cases i with
    | zero => simp [insertAt, List.eraseIdx]
    | succ n =>
      simp only [List.eraseIdx, insertAt, List.set]
      rw [ih n (by simpa using h)]

theorem modifyAt_eq_set {α : Type} (f : α → α) :
    ∀ (l : List α) (i : Nat) (a : α), l.get? i = some a →
      modifyAt f i l = l.set i (f a) := by
  intro l
  induction l with
  | nil => intro i a h; simp at h
  | cons b rest ih =>
    intro i a h
    cases i with
    | zero => simp at h; simp [modifyAt, h]
    | succ n =>
      simp only [List.get?] at h
      simp [modifyAt, ih n a h]

/-! Rendering lemmas for the container operations. -/

theorem Comment.render_extend_line (c : Comment) (line : String) :
    (c.add_line line).render = c.render ++ line := by
  simp [Comment.add_line, Comment.render, strConcat_append, strConcat_singleton]

theorem Space.render_extend_blank (sp : Space) (line : String) :
    (sp.add_line line).render = sp.render ++ line := by
  simp [Space.add_line, Space.render, strConcat_append, strConcat_singleton]

theorem Section.headerStr_structure (s : Section) (l : List SectionContent) :
    Section.headerStr { s with _structure := l } = s.headerStr := rfl

theorem Section.render_structure_append (s : Section) (e : SectionContent) :
    Section.render { s with _structure := s._structure ++ [e] }
      = s.render ++ e.render := by
  unfold Section.render
  rw [Section.headerStr_structure, strConcat_map_concat, String.append_assoc]

theorem Section.render_structure_lastMod (s : Section) {x x' : SectionContent}
    {t : String} (h : s._structure.getLast? = some x)
    (h2 : x'.render = x.render ++ t) :
    Section.render { s with _structure := s._structure.dropLast ++ [x'] }
      = s.render ++ t := by
  unfold Section.render
  rw [Section.headerStr_structure, strConcat_map_lastMod SectionContent.render h h2,
    String.append_assoc]

theorem Section.render_add_comment (s : Section) (line : String) :
    (s.add_comment line).render = s.render ++ line := by
  unfold Section.add_comment
  cases h : s._structure.getLast? with
  | none =>
    rw [Section.render_structure_append]
    simp [SectionContent.render, Comment.add_line, Comment.render,
      strConcat_singleton]
  | some e =>
    cases e with
    | comment c =>
      exact Section.render_structure_lastMod s h (Comment.render_extend_line c line)
    | option o =>
      rw [Section.render_structure_append]
      simp [SectionContent.render, Comment.add_line, Comment.render,
        strConcat_singleton]
    | space sp =>
      rw [Section.render_structure_append]
      simp [SectionContent.render, Comment.add_line, Comment.render,
        strConcat_singleton]

theorem Section.render_add_space (s : Section) (line : String) :
    (s.add_space line).render = s.render ++ line := by
  unfold Section.add_space
  cases h : s._structure.getLast? with
  | none =>
    rw [Section.render_structure_append]
    simp [SectionContent.render, Space.add_line, Space.render, strConcat_singleton]
  | some e =>
    cases e with
    | space sp =>
      exact Section.render_structure_lastMod s h (Space.render_extend_blank sp line)
    | option o =>
      rw [Section.render_structure_append]
      simp [SectionContent.render, Space.add_line, Space.render, strConcat_singleton]
    | comment c =>
      rw [Section.render_structure_append]
      simp [SectionContent.render, Space.add_line, Space.render, strConcat_singleton]

theorem parsedOption_render (key value line : String) :
    (parsedOption key value line).render = line := by
  simp [parsedOption, OptionBlock.render, OptionBlock.updated, strConcat_singleton]

theorem Section.render_add_parsedOption (s : Section) (key value line : String) :
    (s.add_option (parsedOption key value line)).render = s.render ++ line := by
  have h := Section.render_structure_append s (.option (parsedOption key value line))
  rw [Section.add_option, h]
  simp [SectionContent.render, parsedOption_render]

theorem parsedSection_render (name line : String) :
    (parsedSection name line).render = line := by
  simp [parsedSection, Section.render, Section.headerStr, Section.updated,
    strConcat_singleton, strConcat, String.append_empty]

theorem addCommentTop_render (blocks : List ConfigContent) (line : String) :
    strConcat ((addCommentTop blocks line).map ConfigContent.render)
      = strConcat (blocks.map ConfigContent.render) ++ line := by
  unfold addCommentTop
  cases h : blocks.getLast? with
  | none =>
    rw [strConcat_map_concat]
    simp [ConfigContent.render, Comment.add_line, Comment.render, strConcat_singleton]
  | some e =>
    cases e with
    | comment c =>
      exact strConcat_map_lastMod ConfigContent.render h (Comment.render_extend_line c line)
    | sectionB s =>
      rw [strConcat_map_concat]
      simp [ConfigContent.render, Comment.add_line, Comment.render, strConcat_singleton]
    | space sp =>
      rw [strConcat_map_concat]
      simp [ConfigContent.render, Comment.add_line, Comment.render, strConcat_singleton]

theorem addSpaceTop_render (blocks : List ConfigContent) (line : String) :
    strConcat ((addSpaceTop blocks line).map ConfigContent.render)
      = strConcat (blocks.map ConfigContent.render) ++ line := by
  unfold addSpaceTop
  cases h : blocks.getLast? with
  | none =>
    rw [strConcat_map_concat]
    simp [ConfigContent.render, Space.add_line, Space.render, strConcat_singleton]
  | some e =>
    cases e with
    | space sp =>
      exact strConcat_map_lastMod ConfigContent.render h (Space.render_extend_blank sp line)
    | sectionB s =>
      rw [strConcat_map_concat]
      simp [ConfigContent.render, Space.add_line, Space.render, strConcat_singleton]
    | comment c =>
      rw [strConcat_map_concat]
      simp [ConfigContent.render, Space.add_line, Space.render, strConcat_singleton]

/-! Round-trip: each parser transition appends exactly the consumed line
to the rendered text. -/

theorem ParserState.flush_render (st : ParserState) :
    strConcat (st.flush.map ConfigContent.render) = st.render := by
  unfold ParserState.flush ParserState.render
  cases hc : st.cur with
  | none => simp [strConcat, String.append_empty]
  | some s =>
    rw [List.map_append, strConcat_append]
    simp [ConfigContent.render, strConcat_singleton]

theorem Section.render_appendToLastOption (sec : Section) {o : OptionBlock}
    (line : String) (h : sec._structure.getLast? = some (.option o))
    (hu : o._updated = false) (hl : o.lines ≠ []) :
    sec.appendToLastOption line
      = some { sec with
                _structure :=
                  sec._structure.dropLast
                    ++ [.option { o with lines := o.lines ++ [line] }] }
      ∧ Section.render
          { sec with
            _structure :=
              sec._structure.dropLast
                ++ [.option { o with lines := o.lines ++ [line] }] }
          = sec.render ++ line := by
  constructor
  · unfold Section.appendToLastOption
    rw [h]
  · apply Section.render_structure_lastMod sec h
    have h1 : SectionContent.render (.option { o with lines := o.lines ++ [line] })
        = strConcat (o.lines ++ [line]) := by
      simp [SectionContent.render, OptionBlock.render, OptionBlock.updated, hu, hl]
    have h2 : SectionContent.render (.option o) = strConcat o.lines := by
      simp [SectionContent.render, OptionBlock.render, OptionBlock.updated, hu, hl]
    rw [h1, h2, strConcat_append, strConcat_singleton]

theorem parseStep_render {st st2 : ParserState} {line : String}
    (hwf : st.wf) (h : parseStep st line = .ok st2) :
    st2.render = st.render ++ line ∧ st2.wf := by
  unfold parseStep at h
  cases hc : classify line with
  | header name =>
    rw [hc] at h
    cases h
    refine ⟨?_, by intro hi; simp at hi⟩
    show strConcat (List.map ConfigContent.render st.flush)
        ++ (parsedSection name line).render = st.render ++ line
    rw [parsedSection_render, ParserState.flush_render]
  | blank =>
    rw [hc] at h
    cases hcur : st.cur with
    | some sec =>
      rw [hcur] at h
      cases h
      refine ⟨?_, by intro hi; simp at hi⟩
      unfold ParserState.render
      simp only [hcur]
      rw [Section.render_add_space, String.append_assoc]
    | none =>
      rw [hcur] at h
      cases h
      refine ⟨?_, by intro hi; simp at hi⟩
      unfold ParserState.render
      simp only [hcur]
      rw [addSpaceTop_render]
      simp [String.append_empty]
  | comment =>
    rw [hc] at h
    cases hcur : st.cur with
    | some sec =>
      rw [hcur] at h
      cases h
      refine ⟨?_, by intro hi; simp at hi⟩
      unfold ParserState.render
      simp only [hcur]
      rw [Section.render_add_comment, String.append_assoc]
    | none =>
      rw [hcur] at h
      cases h
      refine ⟨?_, by intro hi; simp at hi⟩
      unfold ParserState.render
      simp only [hcur]
      rw [addCommentTop_render]
      simp [String.append_empty]
  | optionLine key value =>
    rw [hc] at h
    cases hcur : st.cur with
    | some sec =>
      rw [hcur] at h
      cases h
      constructor
      · unfold ParserState.render
        simp only [hcur]
        rw [Section.render_add_parsedOption, String.append_assoc]
      · intro _
        refine ⟨sec.add_option (parsedOption key value line),
          parsedOption key value line, rfl, ?_, rfl, by simp [parsedOption]⟩
        unfold Section.add_option
        simp [List.getLast?_concat]
    | none =>
      rw [hcur] at h
      cases h
  | continuation =>
    rw [hc] at h
    cases hcur : st.cur with
    | none =>
      rw [hcur] at h
      cases hio : st.inOption <;> rw [hio] at h <;> cases h
    | some sec =>
      rw [hcur] at h
      cases hio : st.inOption with
      | false => rw [hio] at h; cases h
      | true =>
        rw [hio] at h
        obtain ⟨sec', o, hsec, hlast, hu, hl⟩ := hwf hio
        rw [hcur] at hsec
        cases hsec
        obtain ⟨happ, hrender⟩ := Section.render_appendToLastOption sec line hlast hu hl
        dsimp only at h
        rw [happ] at h
        cases h
        constructor
        · unfold ParserState.render
          simp only [hcur]
          rw [hrender, String.append_assoc]
        · intro _
          refine ⟨_, { o with lines := o.lines ++ [line] }, rfl, ?_, hu, by simp⟩
          simp [List.getLast?_concat]
  | invalid =>
    rw [hc] at h
    cases h

theorem parseFrom_render :
    ∀ (ls : List String) (st : ParserState) (d : Document), st.wf →
      parseFrom st ls = .ok d → d.render = st.render ++ strConcat ls := by
  intro ls
  induction ls with
  | nil =>
    intro st d _ h
    unfold parseFrom at h
    cases h
    unfold Document.render
    rw [ParserState.flush_render]
    simp [strConcat, String.append_empty]
  | cons line rest ih =>
    intro st d hwf h
    unfold parseFrom at h
    cases hs : parseStep st line with
    | error e => rw [hs] at h; cases h
    | ok st2 =>
      rw [hs] at h
      obtain ⟨hr, hwf2⟩ := parseStep_render hwf hs
      rw [ih st2 d hwf2 h, hr, String.append_assoc]
      rfl

theorem strConcat_splitLinesAux :
    ∀ (cs acc : List Char),
      strConcat (splitLinesAux cs acc) = String.mk (acc.reverse ++ cs) := by
  intro cs
  induction cs with
  | nil =>
    intro acc
    cases acc with
    | nil => simp [splitLinesAux, strConcat]
    | cons a t =>
      simp [splitLinesAux, strConcat, String.append_empty]
  | cons c rest ih =>
    intro acc
    by_cases hc : c = '\n'
    · subst hc
      simp only [splitLinesAux, if_pos rfl, strConcat]
      rw [ih []]
      show String.mk ((acc.reverse ++ ['\n']) ++ ([].reverse ++ rest)) = _
      simp
    · simp only [splitLinesAux, if_neg hc]
      rw [ih (c :: acc)]
      simp

theorem strConcat_splitLines (T : String) : strConcat (splitLines T) = T := by
  unfold splitLines
  rw [strConcat_splitLinesAux]
  cases T
  simp

/-! Relational lemmas: membership tests versus indices and finders. -/

theorem any_filterMap_option (l : List SectionContent) (k : String) :
    (l.filterMap fun e =>
        match e with
        | .option o => some o
        | _ => none).any (fun o => o.key == k)
      = l.any fun e =>
          match e with
          | .option o => o.key == k
          | _ => false := by
  induction l with
  | nil => rfl
  | cons e t ih => cases e <;> simp [List.filterMap_cons, ih]

theorem any_filterMap_section (l : List ConfigContent) (name : String) :
    (l.filterMap fun e =>
        match e with
        | .sectionB s => some s
        | _ => none).any (fun s => s.name == name)
      = l.any fun e =>
          match e with
          | .sectionB s => s.name == name
          | _ => false := by
  induction l with
  | nil => rfl
  | cons e t ih => cases e <;> simp [List.filterMap_cons, ih]

theorem Section.idx_isSome_eq_contains (s : Section) (k : String) :
    (s._get_option_idx k).isSome = s.contains k := by
  unfold Section._get_option_idx Section.contains Section.iter_options
  rw [firstIdx?_isSome, ← any_filterMap_option]

theorem Document.idx_isSome_eq_has_section (d : Document) (name : String) :
    (d._get_section_idx name).isSome = d.has_section name := by
  unfold Document._get_section_idx Document.has_section Document.iter_sections
  rw [firstIdx?_isSome, ← any_filterMap_section]

theorem Section.get_option_idx_spec (s : Section) (k : String) (idx : Nat)
    (h : s._get_option_idx k = some idx) :
    idx < s._structure.length
      ∧ ∃ o : OptionBlock, s._structure.get? idx = some (.option o) ∧ o.key = k := by
  obtain ⟨hlt, a, ha, hp⟩ := firstIdx?_some_spec _ h
  refine ⟨hlt, ?_⟩
  cases a with
  | option o => exact ⟨o, ha, by simpa using hp⟩
  | comment c => simp at hp
  | space sp => simp at hp

theorem Document.get_section_idx_spec (d : Document) (name : String) (idx : Nat)
    (h : d._get_section_idx name = some idx) :
    idx < d._structure.length
      ∧ ∃ w : Section, d._structure.get? idx = some (.sectionB w) ∧ w.name = name := by
  obtain ⟨hlt, a, ha, hp⟩ := firstIdx?_some_spec _ h
  refine ⟨hlt, ?_⟩
  cases a with
  | sectionB w => exact ⟨w, ha, by simpa using hp⟩
  | comment c => simp at hp
  | space sp => simp at hp

theorem filterMap_map_set {α β γ : Type} (f : α → Option β) (g : β → γ) :
    ∀ (l : List α) (i : Nat) (a a' : α), l.get? i = some a →
      Option.map g (f a') = Option.map g (f a) →
      ((l.set i a').filterMap f).map g = (l.filterMap f).map g := by
  intro l
  induction l with
  | nil => intro i a a' h _; simp at h
  | cons b t ih =>
    intro i a a' h hf
    cases i with
    | zero =>
      simp only [List.get?, Option.some.injEq] at h
      subst h
      simp only [List.set, List.filterMap_cons]
      cases hfa : f b with
      | none =>
        cases hfa' : f a' with
        | none => rfl
        | some y => rw [hfa, hfa'] at hf; simp at hf
      | some x =>
        cases hfa' : f a' with
        | none => rw [hfa, hfa'] at hf; simp at hf
        | some y =>
          rw [hfa, hfa'] at hf
          simp only [Option.map_some', Option.some.injEq] at hf
          simp [hf]
    | succ n =>
      simp only [List.get?] at h
      simp only [List.set, List.filterMap_cons]
      cases f b <;> simp [ih n a a' h hf]

theorem Document.sections_set (l : List ConfigContent) (idx : Nat)
    (w v : Section) (hget : l.get? idx = some (.sectionB w))
    (hname : v.name = w.name) :
    Document.sections ⟨l.set idx (.sectionB v)⟩ = Document.sections ⟨l⟩ := by
  unfold Document.sections Document.iter_sections
  exact filterMap_map_set _ Section.name l idx _ _ hget (by simp [hname])

theorem Section.options_append_option (s : Section) (o : OptionBlock) :
    Section.options { s with _structure := s._structure ++ [.option o] }
      = s.options ++ [o.key] := by
  simp [Section.options, Section.iter_options, List.filterMap_append,
    List.filterMap_cons]

theorem Section.mem_options_iff (s : Section) (k : String) :
    k ∈ s.options ↔ s.contains k = true := by
  simp only [Section.options, Section.contains, List.any_eq_true, List.mem_map,
    beq_iff_eq]

theorem Section.find?_eq_none_of_not_contains (s : Section) (k : String)
    (h : s.contains k = false) :
    s.iter_options.find? (fun o => o.key == k) = none := by
  rw [List.find?_eq_none]
  intro x hx hb
  have hany : (s.iter_options.any fun o => o.key == k) = true :=
    List.any_eq_true.mpr ⟨x, hx, by simpa using hb⟩
  unfold Section.contains at h
  rw [h] at hany
  exact Bool.noConfusion hany

theorem Document.get_section_none_iff (d : Document) (name : String) :
    d.get_section name = none ↔ d.has_section name = false := by
  unfold Document.get_section Document.has_section
  rw [List.find?_eq_none]
  constructor
  · intro h
    rw [← Bool.not_eq_true, List.any_eq_true]
    rintro ⟨x, hx, hb⟩
    exact h x hx hb
  · intro h x hx hb
    rw [← Bool.not_eq_true, List.any_eq_true] at h
    exact h ⟨x, hx, hb⟩

theorem Section.optionKeysUnique_append (s : Section) (o : OptionBlock)
    (hu : s.optionKeysUnique) (hmem : s.contains o.key = false) :
    Section.optionKeysUnique { s with _structure := s._structure ++ [.option o] } := by
  unfold Section.optionKeysUnique
  rw [Section.options_append_option s o, List.nodup_append]
  refine ⟨hu, List.nodup_singleton _, ?_⟩
  rw [List.disjoint_singleton, Section.mem_options_iff]
  simp [hmem]

/-! The claims. -/

/-- C1: `Document.get(section, option, fallback)` is a two-level lookup
with asymmetric fallback: a missing section raises `NoSectionError`
whatever the fallback; a missing option with a supplied fallback (any
value other than the `_UNSET` sentinel, `None` included) returns the
fallback; a missing option without fallback raises `NoOptionError`. -/
theorem C1_document_get_fallback_asymmetry (d : Document) (sec opt : String)
    (fb : PyVal) :
    (d.get_section sec = none →
      d.get sec opt fb = .error (.noSectionError sec)) ∧
    (∀ S, d.get_section sec = some S →
      S.contains (optionxform opt) = false →
      (fb ≠ PyVal.unset → d.get sec opt fb = .ok fb) ∧
      (fb = PyVal.unset →
        d.get sec opt fb = .error (.noOptionError (optionxform opt) sec))) := by
  constructor
  · intro h
    unfold Document.get
    rw [h]
  · intro S hS hc
    have hf := Section.find?_eq_none_of_not_contains S (optionxform opt) hc
    have hget : S.get (optionxform opt) fb PyVal.opt = fb := by
      unfold Section.get
      rw [hf]
    constructor
    · intro hfb
      unfold Document.get
      rw [hS]
      dsimp only
      rw [hget, if_neg hfb]
    · intro hfb
      unfold Document.get
      rw [hS]
      dsimp only
      rw [hget, hfb, if_pos rfl]

/-- C1 witness: on `exDoc`, a missing section errors despite a fallback, a
missing option returns the fallback (`None` included), and without a
fallback it raises `NoOptionError`. -/
theorem C1_witness :
    exDoc.get "missing" "k" (PyVal.str "x") = .error (.noSectionError "missing")
      ∧ exDoc.get "sec" "absent" PyVal.pynone = .ok PyVal.pynone
      ∧ exDoc.get "sec" "absent" PyVal.unset
          = .error (.noOptionError "absent" "sec") := by
  refine ⟨(C1_document_get_fallback_asymmetry exDoc "missing" "k"
      (PyVal.str "x")).1 (by rfl), ?_, ?_⟩
  · exact ((C1_document_get_fallback_asymmetry exDoc "sec" "absent"
      PyVal.pynone).2 exSection (by rfl) (by decide)).1 (by decide)
  · exact ((C1_document_get_fallback_asymmetry exDoc "sec" "absent"
      PyVal.unset).2 exSection (by rfl) (by decide)).2 rfl

/-- C2: parsing a valid text and stringifying the resulting document with
no mutation in between reproduces the text byte for byte. -/
theorem C2_parse_render_roundtrip (T : String) (d : Document)
    (h : parse T = .ok d) : d.render = T := by
  unfold parse at h
  have h0 : (ParserState.mk [] none false).wf := by
    intro hi
    simp at hi
  have hr := parseFrom_render (splitLines T) (ParserState.mk [] none false) d h0 h
  rw [hr, strConcat_splitLines]
  show "" ++ T = T
  exact String.empty_append T

/-- C2 witness: the round-trip theorem applied to a concrete text covering
comments, headers, options, continuations and blank lines. -/
theorem C2_witness : ∃ d, parse exText = .ok d ∧ d.render = exText := by
  refine ⟨_, rfl, ?_⟩
  exact C2_parse_render_roundtrip exText _ rfl

/-- C10: `Document.has_option` on a missing section returns `False` and
raises nothing, unlike `Document.options` and `Document.get`, which raise
`NoSectionError` for the same missing section. -/
theorem C10_has_option_missing_section (d : Document) (sec opt : String)
    (fb : PyVal) (h : d.has_section sec = false) :
    d.has_option sec opt = false
      ∧ d.options sec = .error (.noSectionError sec)
      ∧ d.get sec opt fb = .error (.noSectionError sec) := by
  have hn : d.get_section sec = none := (Document.get_section_none_iff d sec).mpr h
  refine ⟨?_, ?_, ?_⟩
  · unfold Document.has_option
    rw [hn]
  · unfold Document.options
    rw [if_pos (by simp [h])]
  · unfold Document.get
    rw [hn]

/-- C10 witness: on `exDoc` and the absent section name `"zz"`. -/
theorem C10_witness :
    exDoc.has_option "zz" "k" = false
      ∧ exDoc.options "zz" = .error (.noSectionError "zz")
      ∧ exDoc.get "zz" "k" (PyVal.str "x") = .error (.noSectionError "zz") :=
  C10_has_option_missing_section exDoc "zz" "k" (PyVal.str "x") (by decide)

/-- C4: `Document.add_section` raises `DuplicateSectionError` when the name
already exists and `ValueError` for a non-string non-`Section` argument; in
every error case the document's block sequence is unchanged; for a fresh
name (string or section) the section is appended at the end. -/
theorem C4_add_section_atomic (d : Document) :
    (d.add_sectionRun .other = (d, some .valueError))
      ∧ (∀ n, d.has_section n = true →
          d.add_sectionRun (.str n) = (d, some (.duplicateSectionError n)))
      ∧ (∀ s, d.has_section s.name = true →
          d.add_sectionRun (.sec s) = (d, some (.duplicateSectionError s.name)))
      ∧ (∀ n, d.has_section n = false →
          d.add_sectionRun (.str n)
            = (⟨d._structure ++ [.sectionB (Section.init n)]⟩, none))
      ∧ (∀ s, d.has_section s.name = false →
          d.add_sectionRun (.sec s) = (⟨d._structure ++ [.sectionB s]⟩, none)) := by
  refine ⟨rfl, ?_, ?_, ?_, ?_⟩
  · intro n h
    unfold Document.add_sectionRun
    dsimp only
    rw [if_pos h]
  · intro s h
    unfold Document.add_sectionRun
    dsimp only
    rw [if_pos h]
  · intro n h
    unfold Document.add_sectionRun
    dsimp only
    rw [if_neg (by simp [h])]
  · intro s h
    unfold Document.add_sectionRun
    dsimp only
    rw [if_neg (by simp [h])]

/-- C4 witness: on `exDoc`, a duplicate name errors and leaves the
structure unchanged, a wrong-typed argument errors, and fresh names are
appended. -/
theorem C4_witness :
    exDoc.add_sectionRun .other = (exDoc, some .valueError)
      ∧ exDoc.add_sectionRun (.str "sec")
          = (exDoc, some (.duplicateSectionError "sec"))
      ∧ exDoc.add_sectionRun (.sec exSection)
          = (exDoc, some (.duplicateSectionError "sec"))
      ∧ exDoc.add_sectionRun (.str "fresh")
          = (⟨exDoc._structure ++ [.sectionB (Section.init "fresh")]⟩, none) :=
  ⟨(C4_add_section_atomic exDoc).1,
    (C4_add_section_atomic exDoc).2.1 "sec" (by decide),
    (C4_add_section_atomic exDoc).2.2.1 exSection (by decide),
    (C4_add_section_atomic exDoc).2.2.2.1 "fresh" (by decide)⟩

/-- C8: the dirty flag is set by the `name` setter and for a newly
constructed (not parsed) section; when set, stringification renders a
synthesized `[name]` header followed by the contained blocks; when unset,
the header comes from the originally captured lines. -/
theorem C8_dirty_flag_rendering :
    (∀ name, (Section.init name).updated = true)
      ∧ (∀ (s : Section) (v : String),
          (s.setName v)._updated = true ∧ (s.setName v).updated = true)
      ∧ (∀ s : Section, s.updated = true →
          s.render = "[" ++ s._name ++ "]\n"
            ++ strConcat (s._structure.map SectionContent.render))
      ∧ (∀ s : Section, s.updated = false →
          s.render = strConcat s.lines
            ++ strConcat (s._structure.map SectionContent.render)) := by
  refine ⟨fun name => rfl, fun s v => ⟨rfl, rfl⟩, ?_, ?_⟩
  · intro s h
    unfold Section.render Section.headerStr
    rw [if_pos h]
  · intro s h
    unfold Section.render Section.headerStr
    rw [if_neg (by simp [h])]

/-- C8 witness: a fresh section is dirty and renders a synthesized header;
the parsed `exSection` is clean and renders its captured header line;
renaming marks dirty. -/
theorem C8_witness :
    (Section.init "a").updated = true
      ∧ ((exSection.setName "new")._updated = true
          ∧ (exSection.setName "new").updated = true)
      ∧ (Section.init "a").render
          = "[" ++ (Section.init "a")._name ++ "]\n"
            ++ strConcat ((Section.init "a")._structure.map SectionContent.render)
      ∧ exSection.render
          = strConcat exSection.lines
            ++ strConcat (exSection._structure.map SectionContent.render) :=
  ⟨C8_dirty_flag_rendering.1 "a",
    C8_dirty_flag_rendering.2.1 exSection "new",
    C8_dirty_flag_rendering.2.2.1 (Section.init "a") (C8_dirty_flag_rendering.1 "a"),
    C8_dirty_flag_rendering.2.2.2 exSection (by decide)⟩

/-- Behaviour of `Section.__setitem__` on an existing key with a matching
`Option` value: splice at the found index. -/
theorem Section.setitemRun_replace (s : Section) (key : String) (v : OptionBlock)
    (idx : Nat) (hv : v.key = key)
    (hidx : s._get_option_idx (optionxform key) = some idx) :
    s.setitemRun key (.opt v)
      = ({ s with _structure := s._structure.set idx (.option v) }, none) := by
  have hc : s.contains (optionxform key) = true := by
    rw [← Section.idx_isSome_eq_contains, hidx]
    rfl
  obtain ⟨hlt, o, hget, hok⟩ := Section.get_option_idx_spec s (optionxform key) idx hidx
  unfold Section.setitemRun
  rw [if_pos hc]
  dsimp only
  rw [if_neg (by simp [hv]), hidx]
  dsimp only
  rw [insertAt_eraseIdx_eq_set _ _ _ hlt]

/-- Behaviour of `Section.__setitem__` on an existing key with an `Option`
value whose own key differs: `ValueError`, section unchanged. -/
theorem Section.setitemRun_mismatch (s : Section) (key : String) (v : OptionBlock)
    (hc : s.contains (optionxform key) = true) (hv : v.key ≠ key) :
    s.setitemRun key (.opt v) = (s, some .valueError) := by
  unfold Section.setitemRun
  rw [if_pos hc]
  dsimp only
  rw [if_pos hv]

/-- Behaviour of `Section.__setitem__` on an existing key with a non-`Option`
value: mutate the found option's value in place. -/
theorem Section.setitemRun_mutate (s : Section) (key : String) (value : SetValue)
    (idx : Nat) (o : OptionBlock) (hno : ∀ v, value ≠ SetValue.opt v)
    (hidx : s._get_option_idx (optionxform key) = some idx)
    (hget : s._structure.get? idx = some (.option o)) :
    s.setitemRun key value
      = ({ s with
            _structure := s._structure.set idx (.option (o.setValue value.toVal)) },
          none) := by
  have hc : s.contains (optionxform key) = true := by
    rw [← Section.idx_isSome_eq_contains, hidx]
    rfl
  cases value with
  | opt v => exact absurd rfl (hno v)
  | str v =>
    unfold Section.setitemRun
    rw [if_pos hc]
    dsimp only
    rw [hidx]
    dsimp only
    rw [modifyAt_eq_set _ _ _ _ hget]
  | pynone =>
    unfold Section.setitemRun
    rw [if_pos hc]
    dsimp only
    rw [hidx]
    dsimp only
    rw [modifyAt_eq_set _ _ _ _ hget]

/-- Behaviour of `Section.__setitem__` on a fresh key with a non-`Option`
value: append a freshly created option. -/
theorem Section.setitemRun_append_fresh (s : Section) (key : String)
    (value : SetValue) (hc : s.contains (optionxform key) = false)
    (hno : ∀ v, value ≠ SetValue.opt v) :
    s.setitemRun key value
      = ({ s with
            _structure := s._structure
              ++ [.option ((OptionBlock.init key value.toVal).setValue value.toVal)] },
          none) := by
  cases value with
  | opt v => exact absurd rfl (hno v)
  | str v =>
    unfold Section.setitemRun
    rw [if_neg (by simp [hc])]
  | pynone =>
    unfold Section.setitemRun
    rw [if_neg (by simp [hc])]

/-- Behaviour of `Section.__setitem__` on a fresh key with an `Option`
value: append that option. -/
theorem Section.setitemRun_append_opt (s : Section) (key : String)
    (v : OptionBlock) (hc : s.contains (optionxform key) = false) :
    s.setitemRun key (.opt v)
      = ({ s with _structure := s._structure ++ [.option v] }, none) := by
  unfold Section.setitemRun
  rw [if_neg (by simp [hc])]

/-- Behaviour of `Document.__setitem__` on a fresh key. -/
theorem Document.setitemRun_fresh (d : Document) (key : String) (v : Section)
    (h : d.has_section key = false) :
    d.setitemRun key v
      = (⟨d._structure ++ [.sectionB (v.setName key)]⟩, none) := by
  unfold Document.setitemRun
  rw [if_neg (by simp [h])]
  unfold Document.add_sectionRun
  dsimp only
  rw [if_neg (by simp [Section.setName, Section.name, h])]

/-- Behaviour of `Document.__setitem__` on an existing key. -/
theorem Document.setitemRun_existing (d : Document) (key : String) (v : Section)
    (idx : Nat) (hidx : d._get_section_idx key = some idx) :
    d.setitemRun key v = (⟨d._structure.set idx (.sectionB v)⟩, none) := by
  have hs : d.has_section key = true := by
    rw [← Document.idx_isSome_eq_has_section, hidx]
    rfl
  obtain ⟨hlt, w, hget, hname⟩ := Document.get_section_idx_spec d key idx hidx
  unfold Document.setitemRun
  rw [if_pos hs, hidx]
  dsimp only
  rw [insertAt_eraseIdx_eq_set _ _ _ hlt]

/-- C9: `Document.__setitem__` with a fresh key renames the passed section
to the key (marking it dirty) and appends it; with an existing key it
splices the passed section in at the old index without renaming it. -/
theorem C9_document_setitem_renames (d : Document) (key : String) (v : Section) :
    (d.has_section key = false →
      d.setitemRun key v
        = (⟨d._structure ++ [.sectionB { v with _name := key, _updated := true }]⟩,
            none))
      ∧ (∀ idx, d._get_section_idx key = some idx →
          d.setitemRun key v = (⟨d._structure.set idx (.sectionB v)⟩, none)) := by
  constructor
  · intro h
    rw [Document.setitemRun_fresh d key v h]
    rfl
  · intro idx hidx
    exact Document.setitemRun_existing d key v idx hidx

/-- C9 witness: on `exDoc`, a fresh key renames and appends the argument;
the existing key `"sec"` splices the argument in unrenamed at index 0. -/
theorem C9_witness :
    exDoc.setitemRun "new" (Section.init "x")
        = (⟨exDoc._structure
              ++ [.sectionB { Section.init "x" with _name := "new", _updated := true }]⟩,
            none)
      ∧ exDoc.setitemRun "sec" (Section.init "b")
        = (⟨exDoc._structure.set 0 (.sectionB (Section.init "b"))⟩, none) :=
  ⟨(C9_document_setitem_renames exDoc "new" (Section.init "x")).1 (by decide),
    (C9_document_setitem_renames exDoc "sec" (Section.init "b")).2 0 (by decide)⟩

/-- C6: `Section.__setitem__` on an existing key replaces with a
caller-supplied `Option` by remove-then-insert at the same index (so
sibling order is unchanged), fails with `ValueError` on a key mismatch
leaving the section unchanged, mutates the existing option's value in
place for a non-`Option` value, and appends for a fresh key. -/
theorem C6_section_setitem_cases (s : Section) (key : String) :
    (∀ v idx, v.key = key → s._get_option_idx (optionxform key) = some idx →
        s.setitemRun key (.opt v)
          = ({ s with _structure := s._structure.set idx (.option v) }, none))
      ∧ (∀ v, s.contains (optionxform key) = true → v.key ≠ key →
          s.setitemRun key (.opt v) = (s, some .valueError))
      ∧ (∀ value idx o, (∀ v, value ≠ SetValue.opt v) →
          s._get_option_idx (optionxform key) = some idx →
          s._structure.get? idx = some (.option o) →
          s.setitemRun key value
            = ({ s with
                  _structure := s._structure.set idx (.option (o.setValue value.toVal)) },
                none))
      ∧ (∀ value, s.contains (optionxform key) = false →
          (∀ v, value ≠ SetValue.opt v) →
          s.setitemRun key value
            = ({ s with
                  _structure := s._structure
                    ++ [.option ((OptionBlock.init key value.toVal).setValue
                          value.toVal)] },
                none))
      ∧ (∀ v, s.contains (optionxform key) = false →
          s.setitemRun key (.opt v)
            = ({ s with _structure := s._structure ++ [.option v] }, none)) :=
  ⟨fun v idx hv hidx => Section.setitemRun_replace s key v idx hv hidx,
    fun v hc hv => Section.setitemRun_mismatch s key v hc hv,
    fun value idx o hno hidx hget =>
      Section.setitemRun_mutate s key value idx o hno hidx hget,
    fun value hc hno => Section.setitemRun_append_fresh s key value hc hno,
    fun v hc => Section.setitemRun_append_opt s key v hc⟩

/-- C6 witness: on `exSection`, replacement at index 0, `ValueError` on a
key mismatch, in-place mutation, and append for a fresh key. -/
theorem C6_witness :
    exSection.setitemRun "key" (.opt (OptionBlock.init "key" (some "z")))
        = ({ exSection with
              _structure :=
                exSection._structure.set 0 (.option (OptionBlock.init "key" (some "z"))) },
            none)
      ∧ exSection.setitemRun "KEY" (.opt (OptionBlock.init "key" (some "z")))
        = (exSection, some .valueError)
      ∧ exSection.setitemRun "key" (.str "z")
        = ({ exSection with
              _structure :=
                exSection._structure.set 0
                  (.option (exOptionKey.setValue (SetValue.str "z").toVal)) },
            none)
      ∧ exSection.setitemRun "fresh" (.str "z")
        = ({ exSection with
              _structure :=
                exSection._structure
                  ++ [.option ((OptionBlock.init "fresh" (SetValue.str "z").toVal).setValue
                        (SetValue.str "z").toVal)] },
            none) :=
  ⟨(C6_section_setitem_cases exSection "key").1 (OptionBlock.init "key" (some "z")) 0
      (by decide) (by decide),
    (C6_section_setitem_cases exSection "KEY").2.1 (OptionBlock.init "key" (some "z"))
      (by decide) (by decide),
    (C6_section_setitem_cases exSection "key").2.2.1 (.str "z") 0 exOptionKey
      (by intro v h; cases h) (by decide) (by decide),
    (C6_section_setitem_cases exSection "fresh").2.2.2.1 (.str "z") (by decide)
      (by intro v h; cases h)⟩

/-- C7 counterexample: the normalized form of the supplied key `"KEY"`
matches the stored key of `exSection`'s only option, yet `__delitem__`
raises `KeyError` — deletion is not casing-independent. -/
theorem C7_counterexample :
    optionxform "KEY" = exOptionKey.key
      ∧ exSection.contains (optionxform "KEY") = true
      ∧ exSection.delitemRun "KEY" = (exSection, some (.keyError "KEY")) := by
  decide

/-- C7 (amended): `Section.__delitem__` removes the option whose stored
(normalized) key equals the supplied key exactly as given — the supplied
key is not normalized — and raises `KeyError` leaving the section
unchanged when no stored key matches it verbatim. -/
theorem C7_delitem_exact_key (s : Section) (key : String) :
    (s.contains key = true →
      ∃ idx, s._get_option_idx key = some idx
        ∧ s.delitemRun key
            = ({ s with _structure := s._structure.eraseIdx idx }, none))
      ∧ (s.contains key = false →
          s.delitemRun key = (s, some (.keyError key))) := by
  constructor
  · intro h
    have hs : (s._get_option_idx key).isSome = true := by
      rw [Section.idx_isSome_eq_contains, h]
    cases hidx : s._get_option_idx key with
    | none => rw [hidx] at hs; simp at hs
    | some idx =>
      refine ⟨idx, rfl, ?_⟩
      unfold Section.delitemRun
      rw [hidx]
  · intro h
    have hs : (s._get_option_idx key).isSome = false := by
      rw [Section.idx_isSome_eq_contains, h]
    cases hidx : s._get_option_idx key with
    | some idx => rw [hidx] at hs; simp at hs
    | none =>
      unfold Section.delitemRun
      rw [hidx]

/-- C7 witness: on `exSection`, deleting by the stored key `"key"`
succeeds and deleting by the unmatched key `"nope"` raises `KeyError`
with the section unchanged. -/
theorem C7_witness :
    (∃ idx, exSection._get_option_idx "key" = some idx
        ∧ exSection.delitemRun "key"
            = ({ exSection with _structure := exSection._structure.eraseIdx idx },
                none))
      ∧ exSection.delitemRun "nope" = (exSection, some (.keyError "nope")) :=
  ⟨(C7_delitem_exact_key exSection "key").1 (by decide),
    (C7_delitem_exact_key exSection "nope").2 (by decide)⟩

/-- C3 counterexample: `Section.add_option` appends unconditionally, so
adding an option whose normalized key already exists breaks key
uniqueness. -/
theorem C3_counterexample :
    exSection.optionKeysUnique
      ∧ ¬ (exSection.add_option (OptionBlock.init "KEY" none)).optionKeysUnique := by
  decide

/-- C3 (amended): `Document.__setitem__` with an existing key preserves
section-name uniqueness when the assigned section carries that key as its
name, and `Section.__setitem__` with a fresh key preserves option-key
uniqueness provided a caller-supplied `Option` value carries the
normalized target key; `Section.add_option` performs no uniqueness check
and is excluded. -/
theorem C3_uniqueness_amended :
    (∀ (d : Document) (key : String) (v : Section) (idx : Nat),
        d.sectionNamesUnique → d._get_section_idx key = some idx → v._name = key →
        (d.setitemRun key v).1.sectionNamesUnique)
      ∧ (∀ (s : Section) (key : String) (value : SetValue),
          s.optionKeysUnique → s.contains (optionxform key) = false →
          (∀ o, value = SetValue.opt o → o.key = optionxform key) →
          (s.setitemRun key value).1.optionKeysUnique) := by
  constructor
  · intro d key v idx hu hidx hname
    rw [Document.setitemRun_existing d key v idx hidx]
    obtain ⟨hlt, w, hget, hwname⟩ := Document.get_section_idx_spec d key idx hidx
    unfold Document.sectionNamesUnique at hu ⊢
    rw [Document.sections_set d._structure idx w v hget
      (hname.trans hwname.symm)]
    exact hu
  · intro s key value hu hc hkey
    cases value with
    | opt o =>
      rw [Section.setitemRun_append_opt s key o hc]
      exact Section.optionKeysUnique_append s o hu (by rw [hkey o rfl]; exact hc)
    | str v =>
      rw [Section.setitemRun_append_fresh s key (.str v) hc (by intro o h; cases h)]
      exact Section.optionKeysUnique_append s _ hu hc
    | pynone =>
      rw [Section.setitemRun_append_fresh s key .pynone hc (by intro o h; cases h)]
      exact Section.optionKeysUnique_append s _ hu hc

/-- C3 witness: uniqueness is preserved on `exDoc` by replacing the
section `"sec"` with a section of that name, and on `exSection` by
setting a fresh key. -/
theorem C3_witness :
    (exDoc.setitemRun "sec" (Section.init "sec")).1.sectionNamesUnique
      ∧ (exSection.setitemRun "fresh2" SetValue.pynone).1.optionKeysUnique :=
  ⟨C3_uniqueness_amended.1 exDoc "sec" (Section.init "sec") 0 (by decide) (by decide)
      rfl,
    C3_uniqueness_amended.2 exSection "fresh2" SetValue.pynone (by decide) (by decide)
      (by intro o h; cases h)⟩

/-- The finder used by both `Section.get` and `Section.__getitem__`
succeeds exactly when `__contains__` holds for the searched key. -/
theorem Section.find?_isSome_eq_contains (s : Section) (k : String) :
    (s.iter_options.find? fun o => o.key == k).isSome = s.contains k := by
  unfold Section.contains
  cases hf : s.iter_options.find? (fun o => o.key == k) with
  | some o =>
    have hmem := List.mem_of_find?_eq_some hf
    have hp := List.find?_some hf
    symm
    simp only [Option.isSome_some]
    rw [List.any_eq_true]
    exact ⟨o, hmem, hp⟩
  | none =>
    rw [List.find?_eq_none] at hf
    simp only [Option.isSome_none]
    symm
    rw [← Bool.not_eq_true, List.any_eq_true]
    rintro ⟨x, hx, hb⟩
    exact hf x hx hb

/-- C5 counterexample: on `exSection`, bracket access with `"KEY"`
succeeds (the key is normalized to `"key"` first) while `get("KEY")`
reports absence — `get` does not normalize, so the two access forms do
not succeed on the same keys. -/
theorem C5_counterexample :
    (∃ o, exSection.getitem "KEY" = .ok o)
      ∧ exSection.get "KEY" PyVal.pynone PyVal.opt = PyVal.pynone :=
  ⟨⟨exOptionKey, rfl⟩, by decide⟩

/-- C5 (amended): `Section.__getitem__` normalizes the key and succeeds
exactly when an option with the normalized key is stored; `Section.get`
looks the supplied key up verbatim — absence is reported as the default
instead of raising — so the two coincide exactly when the supplied key
already equals its normalized form. -/
theorem C5_get_uses_raw_key (s : Section) (key : String) :
    ((∃ o, s.getitem key = .ok o) ↔ s.contains (optionxform key) = true)
      ∧ ((∃ o, s.get key PyVal.pynone PyVal.opt = PyVal.opt o)
          ↔ s.contains key = true)
      ∧ (s.get key PyVal.pynone PyVal.opt = PyVal.pynone ↔ s.contains key = false)
      ∧ (optionxform key = key →
          ((∃ o, s.getitem key = .ok o)
            ↔ s.get key PyVal.pynone PyVal.opt ≠ PyVal.pynone)) := by
  have h1 : (∃ o, s.getitem key = .ok o) ↔ s.contains (optionxform key) = true := by
    unfold Section.getitem
    dsimp only
    cases hf : s.iter_options.find? (fun o => o.key == optionxform key) with
    | some o =>
      have hc : s.contains (optionxform key) = true := by
        rw [← Section.find?_isSome_eq_contains, hf]
        rfl
      rw [hc]
      simp
    | none =>
      have hc : s.contains (optionxform key) = false := by
        rw [← Section.find?_isSome_eq_contains, hf]
        rfl
      rw [hc]
      simp
  have h3 : s.get key PyVal.pynone PyVal.opt = PyVal.pynone
      ↔ s.contains key = false := by
    unfold Section.get
    cases hf : s.iter_options.find? (fun o => o.key == key) with
    | some o =>
      have hc : s.contains key = true := by
        rw [← Section.find?_isSome_eq_contains, hf]
        rfl
      rw [hc]
      simp
    | none =>
      have hc : s.contains key = false := by
        rw [← Section.find?_isSome_eq_contains, hf]
        rfl
      rw [hc]
      simp
  have h2 : (∃ o, s.get key PyVal.pynone PyVal.opt = PyVal.opt o)
      ↔ s.contains key = true := by
    unfold Section.get
    cases hf : s.iter_options.find? (fun o => o.key == key) with
    | some o =>
      have hc : s.contains key = true := by
        rw [← Section.find?_isSome_eq_contains, hf]
        rfl
      rw [hc]
      simp
    | none =>
      have hc : s.contains key = false := by
        rw [← Section.find?_isSome_eq_contains, hf]
        rfl
      rw [hc]
      simp
  refine ⟨h1, h2, h3, ?_⟩
  intro h
  rw [h] at h1
  rw [h1]
  simp [Ne, h3]

/-- C5 witness: for an already-normalized key the two access forms agree
on `exSection`. -/
theorem C5_witness :
    (∃ o, exSection.getitem "key" = .ok o)
      ↔ exSection.get "key" PyVal.pynone PyVal.opt ≠ PyVal.pynone :=
  (C5_get_uses_raw_key exSection "key").2.2.2 (by decide)

end ConfigUpdater
